import Mathlib

set_option maxHeartbeats 1000000

/-!
Shallow embedding of the repo-docs repository-synchronization utility
(src/scripts/repo-docs/utils.ts and src/scripts/repo-docs/repo-docs.ts).

Strings are modelled as lists of characters (`Str`); JavaScript string
primitives (endsWith, includes, slice, split, indexOf) are translated into
structurally recursive functions on those lists.
-/

abbrev Str := List Char

def strL (s : String) : Str := s.toList

/-- Boolean prefix test on character lists (models JS startsWith / list prefix). -/
def isPrefixL : Str → Str → Bool
  | [], _ => true
  | _ :: _, [] => false
  | a :: as, b :: bs => a == b && isPrefixL as bs

/-- Boolean suffix test (models JS String.endsWith). -/
def isSuffixL (suffix s : Str) : Bool := isPrefixL suffix.reverse s.reverse

/-- Boolean substring test (models JS String.includes). -/
def containsSub (needle : Str) : Str → Bool
  | [] => needle.isEmpty
  | c :: rest => isPrefixL needle (c :: rest) || containsSub needle rest

/-- The literal version-control suffix ".git". -/
def gitSuffix : Str := strL ".git"

/-- utils.ts stripGitSuffix: value.endsWith(".git") ? value.slice(0, -4) : value. -/
def stripGitSuffix (v : Str) : Str :=
  if isSuffixL gitSuffix v then v.take (v.length - 4) else v

/-- JS String.split("/"): splits into the list of (possibly empty) slash-separated
segments; splitting the empty string yields one empty segment, as in JS. -/
def splitSeg : Str → List Str
  | [] => [[]]
  | c :: rest =>
    match splitSeg rest with
    | [] => [[]]
    | s :: ss => if c = '/' then [] :: s :: ss else (c :: s) :: ss

/-- utils.ts: pathPart.split("/").filter((segment) => segment.length > 0). -/
def pathSegments (l : Str) : List Str :=
  (splitSeg l).filter (fun s => decide (0 < s.length))

/-- The scheme separator "://". -/
def schemeSep : Str := strL "://"

/-- Splits a string around the first occurrence of the scheme separator "://",
returning the text before it and the text after it. -/
def splitScheme : Str → Option (Str × Str)
  | [] => none
  | c :: rest =>
    if isPrefixL schemeSep (c :: rest) then some ([], rest.drop 2)
    else
      match splitScheme rest with
      | some (a, b) => some (c :: a, b)
      | none => none

/-- Modelled from the spec: the platform URL library called by extractPath
("parse it as a URL and take its path component; if URL parsing fails, fall
back to treating raw verbatim").  The model reads scheme://authority/path:
the path component is everything from the first slash after the scheme
separator (the root path "/" when the authority has no path), and parsing
fails when the scheme or the authority is empty.  Host normalisation and
percent-encoding of exotic characters are outside the model. -/
def urlPathname (raw : Str) : Option Str :=
  match splitScheme raw with
  | none => none
  | some (scheme, rest) =>
    if scheme = [] then none
    else
      let auth := rest.takeWhile (fun c => c ≠ '/')
      if auth = [] then none
      else
        let p := rest.drop auth.length
        if p = [] then some ('/' :: []) else some p

/-- utils.ts extractPath: scheme URLs go through the URL library (falling back
to the raw string when URL parsing fails); otherwise, when a colon appears and
the text before the first colon has no slash, SSH shorthand host:path takes
everything after the colon; otherwise the raw string itself. -/
def extractPath (raw : Str) : Str :=
  if containsSub schemeSep raw then
    match urlPathname raw with
    | some p => p
    | none => raw
  else
    let pre := raw.takeWhile (fun c => c ≠ ':')
    if pre.length < raw.length ∧ containsSub (strL "/") pre = false then
      raw.drop (pre.length + 1)
    else raw

structure RepoParts where
  org : Str
  repo : Str
deriving DecidableEq

/-- utils.ts parseRepoParts: extract the path, split into nonempty segments,
fail below two segments, repo = last segment with the .git suffix stripped,
org = second-to-last segment, fail if either is empty. -/
def parseRepoParts (raw : Str) : Option RepoParts :=
  let pathPart := extractPath raw
  let segments := pathSegments pathPart
  if segments.length < 2 then none
  else
    let repo := stripGitSuffix ((segments.get? (segments.length - 1)).getD [])
    let org := (segments.get? (segments.length - 2)).getD []
    if repo.length = 0 ∨ org.length = 0 then none
    else some ⟨org, repo⟩

/-! Helper lemmas about the string primitives. -/

theorem isPrefixL_self_append (a b : Str) : isPrefixL a (a ++ b) = true := by
  induction a with
  | nil => rfl
  | cons c a ih => simp [isPrefixL, ih]

theorem isPrefixL_exists {a b : Str} (h : isPrefixL a b = true) :
    ∃ t, b = a ++ t := by
  induction a generalizing b with
  | nil => exact ⟨b, rfl⟩
  | cons c a ih =>
    cases b with
    | nil => simp [isPrefixL] at h
    | cons d b =>
      simp [isPrefixL] at h
      obtain ⟨t, ht⟩ := ih h.2
      exact ⟨t, by simp [h.1, ht]⟩

theorem containsSub_append_self (m a b : Str) :
    containsSub m (a ++ (m ++ b)) = true := by
  induction a with
  | nil =>
    cases m with
    | nil => cases b <;> simp [containsSub, isPrefixL]
    | cons c m =>
      simp only [List.nil_append, List.cons_append, containsSub]
      have := isPrefixL_self_append (c :: m) b
      simp only [List.cons_append] at this
      simp [this]
  | cons c a ih => simp [containsSub, ih]

theorem containsSub_exists {m l : Str} (h : containsSub m l = true) :
    ∃ s t, l = s ++ m ++ t := by
  induction l with
  | nil =>
    simp [containsSub, List.isEmpty_iff] at h
    exact ⟨[], [], by simp [h]⟩
  | cons c rest ih =>
    simp only [containsSub, Bool.or_eq_true] at h
    rcases h with h | h
    · obtain ⟨t, ht⟩ := isPrefixL_exists h
      exact ⟨[], t, by simp [ht]⟩
    · obtain ⟨s, t, hst⟩ := ih h
      exact ⟨c :: s, t, by simp [hst]⟩

theorem splitSeg_ne_nil (l : Str) : splitSeg l ≠ [] := by
  induction l with
  | nil => simp [splitSeg]
  | cons c rest ih =>
    obtain ⟨s, ss, h⟩ := List.exists_cons_of_ne_nil ih
    simp only [splitSeg, h]
    split <;> simp

theorem splitSeg_append (a : Str) :
    ∀ b s ss, '/' ∉ a → splitSeg b = s :: ss →
      splitSeg (a ++ b) = (a ++ s) :: ss := by
  induction a with
  | nil => intro b s ss _ h; simpa using h
  | cons c a ih =>
    intro b s ss ha h
    have hc : ¬ c = '/' := fun e => ha (by simp [e])
    have h2 := ih b s ss (fun m => ha (List.mem_cons_of_mem _ m)) h
    simp [splitSeg, h2, hc]

theorem pathSegments_slash_cons (b : Str) :
    pathSegments ('/' :: b) = pathSegments b := by
  obtain ⟨s, ss, hb⟩ := List.exists_cons_of_ne_nil (splitSeg_ne_nil b)
  simp [pathSegments, splitSeg, hb]

theorem pathSegments_single (a : Str) (hA : a ≠ []) (ha : '/' ∉ a) :
    pathSegments a = [a] := by
  have h2 := splitSeg_append a [] [] [] ha (by rfl)
  simp only [List.append_nil] at h2
  simp [pathSegments, h2, List.length_pos.mpr hA]

theorem pathSegments_append_slash (a b : Str) (hA : a ≠ []) (ha : '/' ∉ a) :
    pathSegments (a ++ '/' :: b) = a :: pathSegments b := by
  obtain ⟨s, ss, hb⟩ := List.exists_cons_of_ne_nil (splitSeg_ne_nil b)
  have h1 : splitSeg ('/' :: b) = [] :: s :: ss := by simp [splitSeg, hb]
  have h2 := splitSeg_append a ('/' :: b) [] (s :: ss) ha h1
  simp only [List.append_nil] at h2
  simp [pathSegments, h2, hb, List.length_pos.mpr hA]

theorem takeWhile_append_stop (p : Char → Bool) (a : Str) :
    ∀ (c : Char) (b : Str), (∀ x ∈ a, p x = true) → p c = false →
      (a ++ c :: b).takeWhile p = a := by
  induction a with
  | nil => intro c b _ hc; simp [List.takeWhile, hc]
  | cons d a ih =>
    intro c b ha hc
    have hd : p d = true := ha d (by simp)
    have h2 := ih c b (fun x m => ha x (List.mem_cons_of_mem _ m)) hc
    simp [List.takeWhile, hd, h2]

theorem containsSub_singleton_eq_false {a : Char} {l : Str} (h : a ∉ l) :
    containsSub [a] l = false := by
  induction l with
  | nil => rfl
  | cons c rest ih =>
    have hc : ¬ a = c := fun e => h (by simp [e])
    have h2 := ih (fun m => h (List.mem_cons_of_mem _ m))
    simp [containsSub, isPrefixL, hc, h2]

theorem stripGitSuffix_append (r : Str) :
    stripGitSuffix (r ++ gitSuffix) = r := by
  have hsuf : isSuffixL gitSuffix (r ++ gitSuffix) = true := by
    unfold isSuffixL
    rw [List.reverse_append]
    exact isPrefixL_self_append _ _
  unfold stripGitSuffix
  rw [if_pos hsuf]
  have hlen : (r ++ gitSuffix).length - 4 = r.length := by
    simp [gitSuffix, strL]
  rw [hlen]
  exact List.take_left r gitSuffix

theorem splitScheme_append (a : Str) :
    ∀ b, ':' ∉ a → splitScheme (a ++ schemeSep ++ b) = some (a, b) := by
  induction a with
  | nil => intro b _; simp [splitScheme, schemeSep, strL, isPrefixL]
  | cons c a ih =>
    intro b ha
    have hc : ¬ ':' = c := fun e => ha (by simp [← e])
    have h2 := ih b (fun m => ha (List.mem_cons_of_mem _ m))
    simp only [List.cons_append, splitScheme]
    rw [if_neg (by simp [schemeSep, strL, isPrefixL, hc])]
    simp only [List.append_assoc] at h2 ⊢
    simp [h2]

theorem not_containsSub_schemeSep_of_count {l : Str}
    (h : List.count '/' l < 2) : containsSub schemeSep l = false := by
  cases hc : containsSub schemeSep l with
  | false => rfl
  | true =>
    obtain ⟨s, t, hst⟩ := containsSub_exists hc
    rw [hst] at h
    have h2 : List.count '/' schemeSep = 2 := by decide
    simp [List.count_append, h2] at h
    exact absurd h (by omega)

theorem extractPath_scheme (scheme host rest : Str) (hs : scheme ≠ [])
    (hsc : ':' ∉ scheme) (hH : host ≠ []) (hHs : '/' ∉ host) :
    extractPath (scheme ++ schemeSep ++ (host ++ '/' :: rest)) = '/' :: rest := by
  have hcon : containsSub schemeSep (scheme ++ schemeSep ++ (host ++ '/' :: rest)) = true := by
    have := containsSub_append_self schemeSep scheme (host ++ '/' :: rest)
    simpa [List.append_assoc] using this
  have hsplit := splitScheme_append scheme (host ++ '/' :: rest) hsc
  have hauth : (host ++ '/' :: rest).takeWhile (fun c => decide (c ≠ '/')) = host :=
    takeWhile_append_stop _ host '/' rest
      (fun x m => decide_eq_true (fun e => hHs (e ▸ m))) (by simp)
  have hurl : urlPathname (scheme ++ schemeSep ++ (host ++ '/' :: rest)) =
      some ('/' :: rest) := by
    simp only [urlPathname, hsplit]
    rw [if_neg hs]
    simp only [hauth]
    rw [if_neg hH, List.drop_left]
    simp
  simp only [List.append_assoc] at hcon hurl ⊢
  simp [extractPath, hcon, hurl]

theorem extractPath_colon (pre rest : Str) (hpc : ':' ∉ pre) (hps : '/' ∉ pre)
    (hno : containsSub schemeSep (pre ++ ':' :: rest) = false) :
    extractPath (pre ++ ':' :: rest) = rest := by
  have htake : (pre ++ ':' :: rest).takeWhile (fun c => decide (c ≠ ':')) = pre :=
    takeWhile_append_stop _ pre ':' rest
      (fun x m => decide_eq_true (fun e => hpc (e ▸ m))) (by simp)
  have hone : containsSub (strL "/") pre = false := containsSub_singleton_eq_false hps
  simp only [extractPath, hno, Bool.false_eq_true, if_false, htake]
  rw [if_pos ⟨by simp, hone⟩]
  have hsplit : pre ++ ':' :: rest = (pre ++ [':']) ++ rest := by simp
  have hlen : pre.length + 1 = (pre ++ [':']).length := by simp
  rw [hsplit, hlen, List.drop_left]

theorem parseRepoParts_eq_of_segments (raw o r : Str)
    (hseg : pathSegments (extractPath raw) = [o, r]) (ho : o ≠ [])
    (hr : stripGitSuffix r ≠ []) :
    parseRepoParts raw = some ⟨o, stripGitSuffix r⟩ := by
  simp [parseRepoParts, hseg, List.length_eq_zero, ho, hr]

theorem ne_nil_of_gitSuffix {s : Str} (h : isSuffixL gitSuffix s = true) :
    s ≠ [] := by
  intro e
  subst e
  revert h
  decide

/-- Claim C3: for a hostname and nonempty slash-free ORG and REPO (REPO not
already ending in the suffix), the HTTPS form, the HTTPS form with a trailing
.git, and the SSH shorthand user@host:ORG/REPO.git all parse to the pair
(ORG, REPO), the suffix stripped exactly once. -/
theorem claim_C3 (host ORG REPO : Str)
    (hH : host ≠ []) (hHs : '/' ∉ host) (hHc : ':' ∉ host)
    (hO : ORG ≠ []) (hOs : '/' ∉ ORG)
    (hR : REPO ≠ []) (hRs : '/' ∉ REPO)
    (hRg : isSuffixL gitSuffix REPO = false) :
    parseRepoParts (strL "https://" ++ host ++ ('/' :: (ORG ++ ('/' :: REPO)))) =
      some ⟨ORG, REPO⟩ ∧
    parseRepoParts (strL "https://" ++ host ++
      ('/' :: (ORG ++ ('/' :: (REPO ++ gitSuffix))))) = some ⟨ORG, REPO⟩ ∧
    parseRepoParts (strL "user@" ++ host ++
      (':' :: (ORG ++ ('/' :: (REPO ++ gitSuffix))))) = some ⟨ORG, REPO⟩ := by
  have hstripR : stripGitSuffix REPO = REPO := by
    unfold stripGitSuffix
    rw [if_neg (by simp [hRg])]
  have hRg2 : REPO ++ gitSuffix ≠ [] := by simp [gitSuffix, strL]
  have hRs2 : '/' ∉ REPO ++ gitSuffix := by
    intro m
    rcases List.mem_append.mp m with m | m
    · exact hRs m
    · revert m; decide
  have hx1 : strL "https://" ++ host ++ ('/' :: (ORG ++ ('/' :: REPO))) =
      strL "https" ++ schemeSep ++ (host ++ '/' :: (ORG ++ '/' :: REPO)) := by
    simp [strL, schemeSep]
  have hext1 := extractPath_scheme (strL "https") host (ORG ++ '/' :: REPO)
    (by decide) (by decide) hH hHs
  have hseg1 : pathSegments (extractPath
      (strL "https://" ++ host ++ ('/' :: (ORG ++ ('/' :: REPO))))) = [ORG, REPO] := by
    rw [hx1, hext1, pathSegments_slash_cons, pathSegments_append_slash ORG REPO hO hOs,
      pathSegments_single REPO hR hRs]
  have hp1 := parseRepoParts_eq_of_segments _ ORG REPO hseg1 hO
    (by rw [hstripR]; exact hR)
  rw [hstripR] at hp1
  have hx2 : strL "https://" ++ host ++ ('/' :: (ORG ++ ('/' :: (REPO ++ gitSuffix)))) =
      strL "https" ++ schemeSep ++ (host ++ '/' :: (ORG ++ '/' :: (REPO ++ gitSuffix))) := by
    simp [strL, schemeSep]
  have hext2 := extractPath_scheme (strL "https") host (ORG ++ '/' :: (REPO ++ gitSuffix))
    (by decide) (by decide) hH hHs
  have hseg2 : pathSegments (extractPath
      (strL "https://" ++ host ++ ('/' :: (ORG ++ ('/' :: (REPO ++ gitSuffix)))))) =
      [ORG, REPO ++ gitSuffix] := by
    rw [hx2, hext2, pathSegments_slash_cons,
      pathSegments_append_slash ORG (REPO ++ gitSuffix) hO hOs,
      pathSegments_single (REPO ++ gitSuffix) hRg2 hRs2]
  have hp2 := parseRepoParts_eq_of_segments _ ORG (REPO ++ gitSuffix) hseg2 hO
    (by rw [stripGitSuffix_append]; exact hR)
  rw [stripGitSuffix_append] at hp2
  have hpc : ':' ∉ strL "user@" ++ host := by
    intro m
    rcases List.mem_append.mp m with m | m
    · revert m; decide
    · exact hHc m
  have hps : '/' ∉ strL "user@" ++ host := by
    intro m
    rcases List.mem_append.mp m with m | m
    · revert m; decide
    · exact hHs m
  have hcount : List.count '/'
      ((strL "user@" ++ host) ++ ':' :: (ORG ++ '/' :: (REPO ++ gitSuffix))) < 2 := by
    have c1 : List.count '/' (strL "user@") = 0 := by decide
    have c2 : List.count '/' host = 0 := List.count_eq_zero.mpr hHs
    have c3 : List.count '/' ORG = 0 := List.count_eq_zero.mpr hOs
    have c4 : List.count '/' (REPO ++ gitSuffix) = 0 := List.count_eq_zero.mpr hRs2
    have : List.count '/'
        ((strL "user@" ++ host) ++ ':' :: (ORG ++ '/' :: (REPO ++ gitSuffix))) = 1 := by
      simp [List.count_append, List.count_cons, c1, c2, c3, c4]
    omega
  have hno := not_containsSub_schemeSep_of_count hcount
  have hext3 := extractPath_colon (strL "user@" ++ host)
    (ORG ++ '/' :: (REPO ++ gitSuffix)) hpc hps hno
  have hseg3 : pathSegments (extractPath
      (strL "user@" ++ host ++ (':' :: (ORG ++ ('/' :: (REPO ++ gitSuffix)))))) =
      [ORG, REPO ++ gitSuffix] := by
    rw [show strL "user@" ++ host ++ (':' :: (ORG ++ ('/' :: (REPO ++ gitSuffix)))) =
      (strL "user@" ++ host) ++ ':' :: (ORG ++ '/' :: (REPO ++ gitSuffix)) from rfl]
    rw [hext3, pathSegments_append_slash ORG (REPO ++ gitSuffix) hO hOs,
      pathSegments_single (REPO ++ gitSuffix) hRg2 hRs2]
  have hp3 := parseRepoParts_eq_of_segments _ ORG (REPO ++ gitSuffix) hseg3 hO
    (by rw [stripGitSuffix_append]; exact hR)
  rw [stripGitSuffix_append] at hp3
  exact ⟨hp1, hp2, hp3⟩

/-- Witness for C3 at host github.com, organization acme, repository widgets. -/
theorem claim_C3_witness :
    (strL "github.com" ≠ [] ∧ '/' ∉ strL "github.com" ∧ ':' ∉ strL "github.com" ∧
     strL "acme" ≠ [] ∧ '/' ∉ strL "acme" ∧
     strL "widgets" ≠ [] ∧ '/' ∉ strL "widgets" ∧
     isSuffixL gitSuffix (strL "widgets") = false) ∧
    (parseRepoParts (strL "https://" ++ strL "github.com" ++
        ('/' :: (strL "acme" ++ ('/' :: strL "widgets")))) =
      some ⟨strL "acme", strL "widgets"⟩ ∧
     parseRepoParts (strL "https://" ++ strL "github.com" ++
        ('/' :: (strL "acme" ++ ('/' :: (strL "widgets" ++ gitSuffix))))) =
      some ⟨strL "acme", strL "widgets"⟩ ∧
     parseRepoParts (strL "user@" ++ strL "github.com" ++
        (':' :: (strL "acme" ++ ('/' :: (strL "widgets" ++ gitSuffix))))) =
      some ⟨strL "acme", strL "widgets"⟩) :=
  ⟨by decide, claim_C3 (strL "github.com") (strL "acme") (strL "widgets")
    (by decide) (by decide) (by decide) (by decide) (by decide) (by decide)
    (by decide) (by decide)⟩

/-- Claim C8: suffix stripping applies only to the repository segment: whenever
the second-to-last nonempty segment of the extracted path ends in ".git",
parseRepoParts returns that segment verbatim as the organization (suffix
included) and strips the suffix only from the last segment. -/
theorem claim_C8 (raw : Str)
    (hlen : 2 ≤ (pathSegments (extractPath raw)).length)
    (horg : isSuffixL gitSuffix
      (((pathSegments (extractPath raw)).get?
        ((pathSegments (extractPath raw)).length - 2)).getD []) = true)
    (hrepo : stripGitSuffix
      (((pathSegments (extractPath raw)).get?
        ((pathSegments (extractPath raw)).length - 1)).getD []) ≠ []) :
    parseRepoParts raw = some
      ⟨((pathSegments (extractPath raw)).get?
          ((pathSegments (extractPath raw)).length - 2)).getD [],
        stripGitSuffix (((pathSegments (extractPath raw)).get?
          ((pathSegments (extractPath raw)).length - 1)).getD [])⟩ := by
  have hne := ne_nil_of_gitSuffix horg
  simp only [parseRepoParts]
  rw [if_neg (by omega)]
  rw [if_neg ?_]
  · rintro (h | h)
    · exact hrepo (List.length_eq_zero.mp h)
    · exact hne (List.length_eq_zero.mp h)

/-- Witness for C8 at the concrete input https://host/acme.git/widgets. -/
theorem claim_C8_witness :
    (2 ≤ (pathSegments (extractPath (strL "https://host/acme.git/widgets"))).length ∧
     isSuffixL gitSuffix
      (((pathSegments (extractPath (strL "https://host/acme.git/widgets"))).get?
        ((pathSegments (extractPath (strL "https://host/acme.git/widgets"))).length - 2)).getD []) = true ∧
     stripGitSuffix
      (((pathSegments (extractPath (strL "https://host/acme.git/widgets"))).get?
        ((pathSegments (extractPath (strL "https://host/acme.git/widgets"))).length - 1)).getD []) ≠ []) ∧
    parseRepoParts (strL "https://host/acme.git/widgets") = some
      ⟨((pathSegments (extractPath (strL "https://host/acme.git/widgets"))).get?
          ((pathSegments (extractPath (strL "https://host/acme.git/widgets"))).length - 2)).getD [],
        stripGitSuffix (((pathSegments (extractPath (strL "https://host/acme.git/widgets"))).get?
          ((pathSegments (extractPath (strL "https://host/acme.git/widgets"))).length - 1)).getD [])⟩ :=
  ⟨by decide, claim_C8 (strL "https://host/acme.git/widgets")
    (by decide) (by decide) (by decide)⟩

/-- Claim C7: stripGitSuffix is the identity on names not ending in ".git"
(hence idempotent there), strips exactly one trailing ".git" from ".git.git",
and leaves an embedded ".git" occurrence untouched. -/
theorem claim_C7 (v : Str) (h : isSuffixL gitSuffix v = false) :
    stripGitSuffix v = v ∧
    stripGitSuffix (stripGitSuffix v) = stripGitSuffix v ∧
    stripGitSuffix (strL ".git.git") = strL ".git" ∧
    stripGitSuffix (strL "a.gitb") = strL "a.gitb" := by
  refine ⟨?_, ?_, by decide, by decide⟩
  · simp [stripGitSuffix, h]
  · simp [stripGitSuffix, h]

/-- Witness for C7 at the concrete already-stripped name "repo". -/
theorem claim_C7_witness :
    isSuffixL gitSuffix (strL "repo") = false ∧
    (stripGitSuffix (strL "repo") = strL "repo" ∧
     stripGitSuffix (stripGitSuffix (strL "repo")) = stripGitSuffix (strL "repo") ∧
     stripGitSuffix (strL ".git.git") = strL ".git" ∧
     stripGitSuffix (strL "a.gitb") = strL "a.gitb") :=
  ⟨by decide, claim_C7 (strL "repo") (by decide)⟩

/-- Claim C6: any input whose extracted path has fewer than two nonempty
slash-separated segments parses to none; in particular the empty string, the
bare root "/", the single-segment path "/repo" and the bare word "invalid". -/
theorem claim_C6 (raw : Str)
    (h : (pathSegments (extractPath raw)).length < 2) :
    parseRepoParts raw = none ∧
    parseRepoParts (strL "") = none ∧
    parseRepoParts (strL "/") = none ∧
    parseRepoParts (strL "/repo") = none ∧
    parseRepoParts (strL "invalid") = none := by
  refine ⟨?_, by decide, by decide, by decide, by decide⟩
  simp [parseRepoParts, h]

/-- Witness for C6 at the concrete input "/repo". -/
theorem claim_C6_witness :
    (pathSegments (extractPath (strL "/repo"))).length < 2 ∧
    (parseRepoParts (strL "/repo") = none ∧
     parseRepoParts (strL "") = none ∧
     parseRepoParts (strL "/") = none ∧
     parseRepoParts (strL "/repo") = none ∧
     parseRepoParts (strL "invalid") = none) :=
  ⟨by decide, claim_C6 (strL "/repo") (by decide)⟩

/-!
Embedding of repo-docs.ts: the sync engine and the bulk orchestrator.
Side effects are modelled as an explicit event trace, and the external
collaborators (home directory, filesystem, git subprocess) as an explicit
environment record; the git runner returns either a command result or the
message of a platform-layer failure.
-/

structure CommandOutput where
  exitCode : Nat
  stdout : Str
  stderr : Str
deriving DecidableEq

/-- One observable side effect: a line on standard output, a line on standard
error, a git subprocess invocation (arguments and optional working directory),
or a directory creation. -/
inductive Ev
  | log (msg : Str)
  | errlog (msg : Str)
  | git (args : List Str) (cwd : Option Str)
  | mkdir (path : Str) (recursive : Bool)
deriving DecidableEq

/-- The tagged errors of repo-docs.ts; platform carries the message of an
unexpected failure raised by the command layer itself. -/
inductive AppError
  | homeNotSet
  | invalidUrl (url : Str)
  | gitOperation (operation : Str) (label : Str)
  | notGitRepo (dir : Str)
  | missingArgument
  | platform (message : Str)
deriving DecidableEq

/-- The external world: the HOME environment variable, the filesystem
existence check, the recursive directory listing, and the git subprocess
(returning a result, or the message of a platform-layer failure). -/
structure SyncEnv where
  home : Option Str
  pathExists : Str → Bool
  readDirectory : Str → List Str
  runGitFn : List Str → Option Str → Except Str CommandOutput

/-- POSIX-style path join for the plain components used here, modelled from
the platform path library. -/
def joinPath (a b : Str) : Str := a ++ '/' :: b

/-- POSIX path.basename: the last nonempty slash-separated component (empty
when there is none), modelled from the platform path library. -/
def basename (p : Str) : Str := (pathSegments p).getLastD []

/-- POSIX path.dirname: everything before the last slash; "." when there is
no slash, "/" when the last slash starts the path.  Modelled from the
platform path library. -/
def dirname (p : Str) : Str :=
  let post := p.reverse.takeWhile (fun c => c ≠ '/')
  if post.length = p.length then strL "."
  else
    let pre := p.take (p.length - post.length - 1)
    if pre = [] then strL "/" else pre

/-- POSIX path.isAbsolute: the path starts with a slash. -/
def isAbsolute (p : Str) : Bool :=
  match p with
  | [] => false
  | c :: _ => c == '/'

/-- POSIX path.relative, modelled for the descendant case used by the bulk
orchestrator: a target under the base directory loses the base prefix and its
separator; any other target is returned unchanged. -/
def relativePath (base p : Str) : Str :=
  if isPrefixL (base ++ ('/' :: [])) p then p.drop (base.length + 1) else p

def dedupeAux : List Str → List Str → List Str
  | _, [] => []
  | seen, x :: xs =>
    if x ∈ seen then dedupeAux seen xs
    else x :: dedupeAux (x :: seen) xs

/-- The effect library Array.dedupe: keeps the first occurrence of each
element. -/
def dedupeFirst (l : List Str) : List Str := dedupeAux [] l

/-- utils.ts toErrorMessage; errors are modelled by their message text, so on
the model it returns the message itself. -/
def toErrorMessage (e : Str) : Str := e

/-- JS String.trim over the ASCII whitespace relevant here. -/
def trimStr (s : Str) : Str :=
  ((s.dropWhile Char.isWhitespace).reverse.dropWhile Char.isWhitespace).reverse

/-- utils.ts formatOutput: the trimmed stdout and stderr, joined by a newline
when both are nonempty. -/
def formatOutput (result : CommandOutput) : Str :=
  let stdout := trimStr result.stdout
  let stderr := trimStr result.stderr
  if stdout.length = 0 ∧ stderr.length = 0 then []
  else if stdout.length = 0 then stderr
  else if stderr.length = 0 then stdout
  else stdout ++ '\n' :: stderr

/-- repo-docs.ts RepoTarget. -/
structure RepoTarget where
  url : Str
  org : Str
  repo : Str
  dir : Str
  label : Str
deriving DecidableEq

/-- repo-docs.ts baseDir: HOME/.local/repos, failing when HOME is unset. -/
def baseDir (env : SyncEnv) : Except AppError Str :=
  match env.home with
  | none => .error .homeNotSet
  | some home => .ok (joinPath (joinPath home (strL ".local")) (strL "repos"))

/-- The fixed cache root for a given home directory. -/
def cacheRoot (home : Str) : Str :=
  joinPath (joinPath home (strL ".local")) (strL "repos")

/-- repo-docs.ts resolveTarget: resolve the base directory, parse the URL, and
build the target record (failing with InvalidUrlError when parsing fails). -/
def resolveTarget (env : SyncEnv) (url : Str) : Except AppError RepoTarget :=
  match baseDir env with
  | .error e => .error e
  | .ok base =>
    match parseRepoParts url with
    | none => .error (.invalidUrl url)
    | some parts =>
      .ok { url := url, org := parts.org, repo := parts.repo,
            dir := joinPath (joinPath base parts.org) parts.repo,
            label := parts.org ++ '/' :: parts.repo }

def pullArgs : List Str := [strL "pull"]

/-- repo-docs.ts pullRepo: run git pull with the repository directory as the
working directory. -/
def pullRepo (env : SyncEnv) (repoDir : Str) :
    List Ev × Except Str CommandOutput :=
  ([Ev.git pullArgs (some repoDir)], env.runGitFn pullArgs (some repoDir))

def cloneArgs (url dir : Str) : List Str :=
  [strL "clone", strL "--depth", strL "1", url, dir]

/-- repo-docs.ts cloneRepo: recursively create the parent directory of the
destination, then run git clone --depth 1 url dir. -/
def cloneRepo (env : SyncEnv) (target : RepoTarget) :
    List Ev × Except Str CommandOutput :=
  ([Ev.mkdir (dirname target.dir) true,
    Ev.git (cloneArgs target.url target.dir) none],
   env.runGitFn (cloneArgs target.url target.dir) none)

/-- repo-docs.ts logResultOutput: print the combined output (when nonempty) to
standard output on success and to standard error on failure. -/
def logResultOutput (result : CommandOutput) : List Ev :=
  let output := formatOutput result
  if output.length = 0 then []
  else if result.exitCode = 0 then [Ev.log output] else [Ev.errlog output]

/-- repo-docs.ts handleGitResult: log the output, then OK on exit code zero,
and a GitOperationError otherwise. -/
def handleGitResult (result : CommandOutput) (label operation : Str) :
    List Ev × Except AppError Unit :=
  if result.exitCode = 0 then
    (logResultOutput result ++ [Ev.log (strL "OK " ++ label)], .ok ())
  else
    (logResultOutput result, .error (.gitOperation operation label))

/-- repo-docs.ts syncExistingRepo: fail with NotGitRepoError when the .git
entry is missing, otherwise announce and pull. -/
def syncExistingRepo (env : SyncEnv) (target : RepoTarget) :
    List Ev × Except AppError Unit :=
  if env.pathExists (joinPath target.dir (strL ".git")) = false then
    ([], .error (.notGitRepo target.dir))
  else
    let pr := pullRepo env target.dir
    match pr.2 with
    | .error e =>
      (Ev.log (strL "Pulling " ++ target.label) :: pr.1, .error (.platform e))
    | .ok result =>
      let h := handleGitResult result target.label (strL "pull")
      (Ev.log (strL "Pulling " ++ target.label) :: pr.1 ++ h.1, h.2)

/-- repo-docs.ts cloneNewRepo: announce and clone. -/
def cloneNewRepo (env : SyncEnv) (target : RepoTarget) :
    List Ev × Except AppError Unit :=
  let cr := cloneRepo env target
  match cr.2 with
  | .error e =>
    (Ev.log (strL "Cloning " ++ target.label) :: cr.1, .error (.platform e))
  | .ok result =>
    let h := handleGitResult result target.label (strL "clone")
    (Ev.log (strL "Cloning " ++ target.label) :: cr.1 ++ h.1, h.2)

/-- repo-docs.ts syncSingle: resolve, then pull when the target directory
exists and clone when it does not. -/
def syncSingle (env : SyncEnv) (url : Str) : List Ev × Except AppError Unit :=
  match resolveTarget env url with
  | .error e => ([], .error e)
  | .ok target =>
    if env.pathExists target.dir then syncExistingRepo env target
    else cloneNewRepo env target

/-- repo-docs.ts SyncOutcome. -/
structure SyncOutcome where
  repoDir : Str
  label : Str
  ok : Bool
  output : Str
  exitCode : Nat
deriving DecidableEq

/-- repo-docs.ts pullWithSummary: pull, catching any platform-layer failure
into a synthesized failed result (exit code 1, empty stdout, the error message
as stderr), and record the outcome; total, never an error. -/
def pullWithSummary (env : SyncEnv) (base repoDir : Str) :
    List Ev × SyncOutcome :=
  let label := relativePath base repoDir
  let pr := pullRepo env repoDir
  let result :=
    match pr.2 with
    | .ok r => r
    | .error e => { exitCode := 1, stdout := [], stderr := toErrorMessage e }
  (pr.1,
   { repoDir := repoDir, label := label, ok := result.exitCode == 0,
     output := formatOutput result, exitCode := result.exitCode })

/-- repo-docs.ts findGitRepos: empty when the root does not exist; otherwise
the deduplicated parents of every listed entry whose basename is ".git". -/
def findGitRepos (env : SyncEnv) (root : Str) : List Str :=
  if env.pathExists root = false then []
  else
    let entries := env.readDirectory root
    let gitDirs := entries.filter (fun entry => basename entry = strL ".git")
    let repoDirs := gitDirs.map (fun entry =>
      dirname (if isAbsolute entry then entry else joinPath root entry))
    dedupeFirst repoDirs

def natStr (n : Nat) : Str := (toString n).toList

/-- The per-repository outcomes of the bulk sync, in discovery order. -/
def bulkOutcomes (env : SyncEnv) (base : Str) (repos : List Str) :
    List SyncOutcome :=
  repos.map (fun repoDir => (pullWithSummary env base repoDir).2)

/-- The OK label / FAIL label report line for one outcome. -/
def okFailLine (r : SyncOutcome) : Ev :=
  Ev.log ((if r.ok then strL "OK " else strL "FAIL ") ++ r.label)

/-- The report line for one failed outcome: its combined output, or the
no-output placeholder. -/
def failureLine (f : SyncOutcome) : Ev :=
  Ev.log (if f.output.length > 0 then f.label ++ '\n' :: f.output
          else f.label ++ strL " (no output)")

/-- The trailing report section present exactly when some outcome failed. -/
def failuresSection (outcomes : List SyncOutcome) : List Ev :=
  if (outcomes.filter (fun r => !r.ok)).length > 0 then
    Ev.log (strL "Failures:") :: (outcomes.filter (fun r => !r.ok)).map failureLine
  else []

/-- repo-docs.ts syncAllRepos.  Effect.forEach with bounded concurrency
returns its results in input order, so the model sequences the per-repository
pull traces in discovery order. -/
def syncAllRepos (env : SyncEnv) : List Ev × Except AppError Unit :=
  match baseDir env with
  | .error e => ([], .error e)
  | .ok base =>
    let repos := findGitRepos env base
    if repos.length = 0 then
      ([Ev.log (strL "No repos found in " ++ base)], .ok ())
    else
      let results := repos.map (fun repoDir => pullWithSummary env base repoDir)
      let pullTrace := (results.map Prod.fst).flatten
      let outcomes := results.map Prod.snd
      let successes := outcomes.filter (fun r => r.ok)
      let failures := outcomes.filter (fun r => !r.ok)
      let doneLine := strL "Done. " ++ natStr successes.length ++ strL " ok, " ++
        natStr failures.length ++ strL " failed."
      let summary := outcomes.map okFailLine
      (Ev.log (strL "Syncing " ++ natStr repos.length ++ strL " repos...") ::
         pullTrace ++ (Ev.log doneLine :: summary) ++ failuresSection outcomes,
       .ok ())

theorem mem_dedupeAux (a : Str) :
    ∀ (l seen : List Str), a ∈ dedupeAux seen l ↔ a ∈ l ∧ a ∉ seen := by
  intro l
  induction l with
  | nil => intro seen; simp [dedupeAux]
  | cons x xs ih =>
    intro seen
    by_cases hx : x ∈ seen
    · simp only [dedupeAux]
      rw [if_pos hx, ih]
      simp only [List.mem_cons]
      constructor
      · rintro ⟨h1, h2⟩
        exact ⟨Or.inr h1, h2⟩
      · rintro ⟨h1 | h1, h2⟩
        · subst h1; exact absurd hx h2
        · exact ⟨h1, h2⟩
    · simp only [dedupeAux]
      rw [if_neg hx]
      simp only [List.mem_cons, ih]
      constructor
      · rintro (rfl | ⟨h1, h2⟩)
        · exact ⟨Or.inl rfl, hx⟩
        · exact ⟨Or.inr h1, fun hs => h2 (Or.inr hs)⟩
      · rintro ⟨rfl | h1, h2⟩
        · exact Or.inl rfl
        · by_cases hax : a = x
          · exact Or.inl hax
          · refine Or.inr ⟨h1, fun hs => ?_⟩
            rcases hs with e | e
            exacts [hax e, h2 e]

theorem nodup_dedupeAux : ∀ (l seen : List Str), (dedupeAux seen l).Nodup := by
  intro l
  induction l with
  | nil => intro seen; simp [dedupeAux]
  | cons x xs ih =>
    intro seen
    by_cases hx : x ∈ seen
    · simp only [dedupeAux]
      rw [if_pos hx]
      exact ih seen
    · simp only [dedupeAux]
      rw [if_neg hx]
      refine List.nodup_cons.mpr ⟨fun hmem => ?_, ih (x :: seen)⟩
      have := ((mem_dedupeAux x xs (x :: seen)).mp hmem).2
      exact this (List.mem_cons_self x seen)

theorem mem_dedupeFirst (a : Str) (l : List Str) :
    a ∈ dedupeFirst l ↔ a ∈ l := by
  rw [dedupeFirst, mem_dedupeAux]
  simp

theorem nodup_dedupeFirst (l : List Str) : (dedupeFirst l).Nodup :=
  nodup_dedupeAux l []

/-- Claim C9: with an existing root, findGitRepos returns exactly the parents
of the listed entries whose basename is ".git" (each resolved against the root
when relative) — entries merely containing ".git" elsewhere in their name
contribute nothing — and the returned list has no duplicates. -/
theorem claim_C9 (env : SyncEnv) (root : Str)
    (hex : env.pathExists root = true) :
    (∀ d, d ∈ findGitRepos env root ↔
      ∃ e, e ∈ env.readDirectory root ∧ basename e = strL ".git" ∧
        d = dirname (if isAbsolute e then e else joinPath root e)) ∧
    (findGitRepos env root).Nodup := by
  have hr : findGitRepos env root =
      dedupeFirst (((env.readDirectory root).filter
        (fun entry => basename entry = strL ".git")).map (fun entry =>
          dirname (if isAbsolute entry then entry else joinPath root entry))) := by
    simp [findGitRepos, hex]
  constructor
  · intro d
    rw [hr, mem_dedupeFirst]
    simp only [List.mem_map, List.mem_filter]
    constructor
    · rintro ⟨e, ⟨he, hb⟩, heq⟩
      exact ⟨e, he, by simpa using hb, heq.symm⟩
    · rintro ⟨e, he, hb, heq⟩
      exact ⟨e, ⟨he, by simpa using hb⟩, heq.symm⟩
  · rw [hr]
    exact nodup_dedupeFirst _

def env9 : SyncEnv :=
  { home := some (strL "/home/u"),
    pathExists := fun _ => true,
    readDirectory := fun _ =>
      [strL "acme/widgets/.git", strL "acme/widgets/vendor/dep/.git",
       strL "acme/widgets/.github", strL "acme.git/other",
       strL "acme/widgets/.git"],
    runGitFn := fun _ _ => .ok ⟨0, [], []⟩ }

/-- Witness for C9 on a listing with a nested repository, a .github entry, a
name containing .git in the middle, and a duplicated entry. -/
theorem claim_C9_witness :
    env9.pathExists (strL "/home/u/.local/repos") = true ∧
    ((∀ d, d ∈ findGitRepos env9 (strL "/home/u/.local/repos") ↔
      ∃ e, e ∈ env9.readDirectory (strL "/home/u/.local/repos") ∧
        basename e = strL ".git" ∧
        d = dirname (if isAbsolute e then e
                     else joinPath (strL "/home/u/.local/repos") e)) ∧
     (findGitRepos env9 (strL "/home/u/.local/repos")).Nodup) :=
  ⟨rfl, claim_C9 env9 (strL "/home/u/.local/repos") rfl⟩

/-- Claim C5: when HOME is set but the cache root does not exist on disk,
syncAllRepos prints exactly the no-repos message, succeeds, and performs no
git invocation. -/
theorem claim_C5 (env : SyncEnv) (home : Str) (hh : env.home = some home)
    (hx : env.pathExists (cacheRoot home) = false) :
    syncAllRepos env =
      ([Ev.log (strL "No repos found in " ++ cacheRoot home)], .ok ()) ∧
    ∀ args cwd, Ev.git args cwd ∉ (syncAllRepos env).1 := by
  have hbd : baseDir env = .ok (cacheRoot home) := by
    simp [baseDir, hh, cacheRoot]
  have hfind : findGitRepos env (cacheRoot home) = [] := by
    simp [findGitRepos, hx]
  have h1 : syncAllRepos env =
      ([Ev.log (strL "No repos found in " ++ cacheRoot home)], .ok ()) := by
    simp [syncAllRepos, hbd, hfind]
  refine ⟨h1, ?_⟩
  rw [h1]
  intro args cwd m
  simp at m

def env5 : SyncEnv :=
  { home := some (strL "/home/u"), pathExists := fun _ => false,
    readDirectory := fun _ => [], runGitFn := fun _ _ => .ok ⟨0, [], []⟩ }

/-- Witness for C5 on an environment whose cache root does not exist. -/
theorem claim_C5_witness :
    env5.home = some (strL "/home/u") ∧
    env5.pathExists (cacheRoot (strL "/home/u")) = false ∧
    (syncAllRepos env5 =
      ([Ev.log (strL "No repos found in " ++ cacheRoot (strL "/home/u"))], .ok ()) ∧
     ∀ args cwd, Ev.git args cwd ∉ (syncAllRepos env5).1) :=
  ⟨rfl, rfl, claim_C5 env5 (strL "/home/u") rfl rfl⟩

/-- Claim C10: syncSingle is atomic on resolution failure — with HOME unset it
fails with HomeNotSetError, and with an unparseable URL with InvalidUrlError,
in both cases with an empty trace: no directory creation, no git invocation,
no progress line. -/
theorem claim_C10 (env : SyncEnv) (url : Str) :
    (env.home = none → syncSingle env url = ([], .error .homeNotSet)) ∧
    (∀ home, env.home = some home → parseRepoParts url = none →
      syncSingle env url = ([], .error (.invalidUrl url))) := by
  constructor
  · intro hh
    simp [syncSingle, resolveTarget, baseDir, hh]
  · intro home hh hp
    simp [syncSingle, resolveTarget, baseDir, hh, hp]

def env10 : SyncEnv :=
  { home := none, pathExists := fun _ => true, readDirectory := fun _ => [],
    runGitFn := fun _ _ => .ok ⟨0, [], []⟩ }

def env10b : SyncEnv := { env10 with home := some (strL "/home/u") }

/-- Witness for C10: unset home on one environment, unparseable URL on
another. -/
theorem claim_C10_witness :
    (env10.home = none ∧
     syncSingle env10 (strL "https://github.com/acme/widgets") =
       ([], .error .homeNotSet)) ∧
    (env10b.home = some (strL "/home/u") ∧
     parseRepoParts (strL "invalid") = none ∧
     syncSingle env10b (strL "invalid") =
       ([], .error (.invalidUrl (strL "invalid")))) :=
  ⟨⟨rfl, (claim_C10 env10 (strL "https://github.com/acme/widgets")).1 rfl⟩,
   ⟨rfl, by decide,
    (claim_C10 env10b (strL "invalid")).2 (strL "/home/u") rfl (by decide)⟩⟩

/-- Claim C2: when the pull invocation itself fails at the orchestration
layer, pullWithSummary catches it and records a failed outcome whose
synthesized command result has exit code 1, empty stdout, and the caught error
message as stderr; pullWithSummary is total (never an error as an effect), the
bulk run always succeeds as an effect when HOME is set, and the bulk outcome
list records exactly one outcome per discovered repository. -/
theorem claim_C2 (env : SyncEnv) (base repoDir msg : Str)
    (herr : env.runGitFn pullArgs (some repoDir) = .error msg) :
    (pullWithSummary env base repoDir).2 =
      { repoDir := repoDir, label := relativePath base repoDir, ok := false,
        output := formatOutput
          { exitCode := 1, stdout := [], stderr := toErrorMessage msg },
        exitCode := 1 } ∧
    (∀ home, env.home = some home → (syncAllRepos env).2 = .ok ()) ∧
    (∀ repos, (bulkOutcomes env base repos).length = repos.length) := by
  refine ⟨?_, ?_, ?_⟩
  · simp [pullWithSummary, pullRepo, herr]
  · intro home hh
    have hbd : baseDir env = .ok (cacheRoot home) := by
      simp [baseDir, hh, cacheRoot]
    simp only [syncAllRepos, hbd]
    split <;> rfl
  · intro repos
    simp [bulkOutcomes]

def env2 : SyncEnv :=
  { home := some (strL "/home/u"), pathExists := fun _ => true,
    readDirectory := fun _ => [], runGitFn := fun _ _ => .error (strL "boom") }

/-- Witness for C2 on a git runner that always raises. -/
theorem claim_C2_witness :
    env2.runGitFn pullArgs (some (strL "/home/u/.local/repos/acme/widgets")) =
      .error (strL "boom") ∧
    ((pullWithSummary env2 (strL "/home/u/.local/repos")
        (strL "/home/u/.local/repos/acme/widgets")).2 =
      { repoDir := strL "/home/u/.local/repos/acme/widgets",
        label := relativePath (strL "/home/u/.local/repos")
          (strL "/home/u/.local/repos/acme/widgets"),
        ok := false,
        output := formatOutput
          { exitCode := 1, stdout := [], stderr := toErrorMessage (strL "boom") },
        exitCode := 1 } ∧
     (∀ home, env2.home = some home → (syncAllRepos env2).2 = .ok ()) ∧
     (∀ repos, (bulkOutcomes env2 (strL "/home/u/.local/repos") repos).length =
        repos.length)) :=
  ⟨rfl, claim_C2 env2 (strL "/home/u/.local/repos")
    (strL "/home/u/.local/repos/acme/widgets") (strL "boom") rfl⟩

/-- Claim C1: syncSingle's three-way decision.  When the resolved directory
does not exist the trace starts with the Cloning announcement, a recursive
creation of the parent directory, and the shallow depth-1 clone invocation
with the source URL and the destination; when it exists and holds a .git
entry the trace starts with the Pulling announcement and a pull in that
directory; when it exists without a .git entry the call fails with
NotGitRepoError with an empty trace, so no git invocation at all. -/
theorem claim_C1 (env : SyncEnv) (url : Str) (target : RepoTarget)
    (hres : resolveTarget env url = .ok target) :
    (env.pathExists target.dir = false →
      ∃ rest, (syncSingle env url).1 =
        Ev.log (strL "Cloning " ++ target.label) ::
        Ev.mkdir (dirname target.dir) true ::
        Ev.git (cloneArgs target.url target.dir) none :: rest) ∧
    (env.pathExists target.dir = true →
      env.pathExists (joinPath target.dir (strL ".git")) = true →
      ∃ rest, (syncSingle env url).1 =
        Ev.log (strL "Pulling " ++ target.label) ::
        Ev.git pullArgs (some target.dir) :: rest) ∧
    (env.pathExists target.dir = true →
      env.pathExists (joinPath target.dir (strL ".git")) = false →
      syncSingle env url = ([], .error (.notGitRepo target.dir))) := by
  refine ⟨?_, ?_, ?_⟩
  · intro hpe
    cases hg : env.runGitFn (cloneArgs target.url target.dir) none with
    | error e =>
      exact ⟨[], by simp [syncSingle, hres, hpe, cloneNewRepo, cloneRepo, hg]⟩
    | ok r =>
      exact ⟨(handleGitResult r target.label (strL "clone")).1,
        by simp [syncSingle, hres, hpe, cloneNewRepo, cloneRepo, hg]⟩
  · intro hpe hgit
    cases hg : env.runGitFn pullArgs (some target.dir) with
    | error e =>
      exact ⟨[], by
        simp [syncSingle, hres, hpe, syncExistingRepo, hgit, pullRepo, hg]⟩
    | ok r =>
      exact ⟨(handleGitResult r target.label (strL "pull")).1,
        by simp [syncSingle, hres, hpe, syncExistingRepo, hgit, pullRepo, hg]⟩
  · intro hpe hgit
    simp [syncSingle, hres, hpe, syncExistingRepo, hgit]

def env1 : SyncEnv :=
  { home := some (strL "/home/u"), pathExists := fun _ => false,
    readDirectory := fun _ => [], runGitFn := fun _ _ => .ok ⟨0, [], []⟩ }

def target1 : RepoTarget :=
  { url := strL "https://github.com/acme/widgets", org := strL "acme",
    repo := strL "widgets", dir := strL "/home/u/.local/repos/acme/widgets",
    label := strL "acme/widgets" }

/-- Witness for C1: clone decision on an empty cache. -/
theorem claim_C1_witness :
    resolveTarget env1 (strL "https://github.com/acme/widgets") = .ok target1 ∧
    env1.pathExists target1.dir = false ∧
    ∃ rest, (syncSingle env1 (strL "https://github.com/acme/widgets")).1 =
      Ev.log (strL "Cloning " ++ target1.label) ::
      Ev.mkdir (dirname target1.dir) true ::
      Ev.git (cloneArgs target1.url target1.dir) none :: rest :=
  ⟨rfl, rfl,
   (claim_C1 env1 (strL "https://github.com/acme/widgets") target1 rfl).1 rfl⟩

theorem pullWithSummary_ok_iff (env : SyncEnv) (base repoDir : Str) :
    ((pullWithSummary env base repoDir).2).ok =
      ((pullWithSummary env base repoDir).2.exitCode == 0) := by
  cases hg : env.runGitFn pullArgs (some repoDir) <;>
    simp [pullWithSummary, pullRepo, hg]

/-- Claim C4: after the bulk sync completes, the emitted report consists of
the count line Done. s ok, f failed. — where s counts outcomes with exit code
zero and f those with nonzero exit code — followed by exactly one OK/FAIL
line per discovered repository in discovery order (the outcomes are the map
of pullWithSummary over the deduplicated discovery list), and the Failures
section exactly when at least one failure occurred. -/
theorem claim_C4 (env : SyncEnv) (home : Str) (hh : env.home = some home)
    (hne : findGitRepos env (cacheRoot home) ≠ []) :
    ∃ pre, (syncAllRepos env).1 =
      pre ++
      Ev.log (strL "Done. " ++
        natStr ((bulkOutcomes env (cacheRoot home)
          (findGitRepos env (cacheRoot home))).filter
            (fun r => r.exitCode == 0)).length ++
        strL " ok, " ++
        natStr ((bulkOutcomes env (cacheRoot home)
          (findGitRepos env (cacheRoot home))).filter
            (fun r => !(r.exitCode == 0))).length ++
        strL " failed.") ::
      ((bulkOutcomes env (cacheRoot home)
          (findGitRepos env (cacheRoot home))).map okFailLine ++
       failuresSection (bulkOutcomes env (cacheRoot home)
          (findGitRepos env (cacheRoot home)))) := by
  have hbd : baseDir env = .ok (cacheRoot home) := by
    simp [baseDir, hh, cacheRoot]
  have hlen0 : ¬ (findGitRepos env (cacheRoot home)).length = 0 :=
    fun h => hne (List.length_eq_zero.mp h)
  have houtcomes :
      (List.map (fun repoDir => pullWithSummary env (cacheRoot home) repoDir)
        (findGitRepos env (cacheRoot home))).map Prod.snd =
      bulkOutcomes env (cacheRoot home) (findGitRepos env (cacheRoot home)) := by
    simp [bulkOutcomes, List.map_map, Function.comp]
  have hok : ∀ r ∈ bulkOutcomes env (cacheRoot home)
      (findGitRepos env (cacheRoot home)),
      (fun r : SyncOutcome => r.ok) r =
      (fun r : SyncOutcome => r.exitCode == 0) r := by
    intro r hr
    simp only [bulkOutcomes, List.mem_map] at hr
    obtain ⟨d, _, rfl⟩ := hr
    exact pullWithSummary_ok_iff env (cacheRoot home) d
  have hok2 : ∀ r ∈ bulkOutcomes env (cacheRoot home)
      (findGitRepos env (cacheRoot home)),
      (fun r : SyncOutcome => !r.ok) r =
      (fun r : SyncOutcome => !(r.exitCode == 0)) r := by
    intro r hr
    have := hok r hr
    simp only at this
    simp [this]
  have hfiltS := List.filter_congr hok
  have hfiltF := List.filter_congr hok2
  refine ⟨Ev.log (strL "Syncing " ++
      natStr (findGitRepos env (cacheRoot home)).length ++ strL " repos...") ::
    (((findGitRepos env (cacheRoot home)).map
      (fun repoDir => pullWithSummary env (cacheRoot home) repoDir)).map
        Prod.fst).flatten, ?_⟩
  simp only [syncAllRepos, hbd]
  rw [if_neg hlen0]
  simp only [houtcomes, hfiltS, hfiltF]
  simp [List.append_assoc]

def env4 : SyncEnv :=
  { home := some (strL "/home/u"), pathExists := fun _ => true,
    readDirectory := fun _ =>
      [strL "org-a/repo-1/.git", strL "org-b/repo-2/.git"],
    runGitFn := fun _ cwd =>
      if cwd = some (strL "/home/u/.local/repos/org-a/repo-1") then
        .ok ⟨0, strL "Already up to date.", []⟩
      else .ok ⟨1, [], strL "fatal: could not read from remote"⟩ }

/-- Witness for C4 on a two-repository cache with one failing pull. -/
theorem claim_C4_witness :
    env4.home = some (strL "/home/u") ∧
    findGitRepos env4 (cacheRoot (strL "/home/u")) ≠ [] ∧
    ∃ pre, (syncAllRepos env4).1 =
      pre ++
      Ev.log (strL "Done. " ++
        natStr ((bulkOutcomes env4 (cacheRoot (strL "/home/u"))
          (findGitRepos env4 (cacheRoot (strL "/home/u")))).filter
            (fun r => r.exitCode == 0)).length ++
        strL " ok, " ++
        natStr ((bulkOutcomes env4 (cacheRoot (strL "/home/u"))
          (findGitRepos env4 (cacheRoot (strL "/home/u")))).filter
            (fun r => !(r.exitCode == 0))).length ++
        strL " failed.") ::
      ((bulkOutcomes env4 (cacheRoot (strL "/home/u"))
          (findGitRepos env4 (cacheRoot (strL "/home/u")))).map okFailLine ++
       failuresSection (bulkOutcomes env4 (cacheRoot (strL "/home/u"))
          (findGitRepos env4 (cacheRoot (strL "/home/u"))))) :=
  ⟨rfl, by decide, claim_C4 env4 (strL "/home/u") rfl (by decide)⟩
